import Mathlib

/-!
Verification of the command-to-instruction parser and editing dispatch of
`src/voice_video_editor_prototype.py`. Python strings are modelled as Lean
`String`/`List Char`, Python ints as `Nat`, fallible Python calls (uncaught
exceptions, the external MoviePy library) as `Option`/`Except`.
-/

namespace VVE

/-! ### Python built-in decimal conversions (`str`, `int`) -/

/-- Decimal digits of a natural number, most significant first: the digit
sequence behind Python `str` on a non-negative `int`. -/
def toDigitsList (n : Nat) : List Nat :=
  if _h : n < 10 then [n] else toDigitsList (n / 10) ++ [n % 10]
decreasing_by exact Nat.div_lt_self (by omega) (by omega)

def digitChar (d : Nat) : Char := Char.ofNat (48 + d)

/-- Model of Python `str` on a non-negative `int`. -/
def natRepr (n : Nat) : String := String.mk ((toDigitsList n).map digitChar)

def digitVal (c : Char) : Nat := c.toNat - 48

/-- Model of Python `int` on a string of decimal digits. -/
def pyIntList (l : List Char) : Nat := l.foldl (fun a c => a * 10 + digitVal c) 0

theorem toDigitsList_lt (n : Nat) : ∀ d ∈ toDigitsList n, d < 10 := by
  induction n using Nat.strong_induction_on with
  | _ n ih =>
    rw [toDigitsList]
    split
    · intro d hd
      simp only [List.mem_singleton] at hd
      omega
    · intro d hd
      simp only [List.mem_append, List.mem_singleton] at hd
      rcases hd with h1 | h2
      · exact ih (n / 10) (Nat.div_lt_self (by omega) (by omega)) d h1
      · omega

theorem toDigitsList_ne_nil (n : Nat) : toDigitsList n ≠ [] := by
  rw [toDigitsList]
  split <;> simp

theorem toDigitsList_of_lt {n : Nat} (h : n < 10) : toDigitsList n = [n] := by
  rw [toDigitsList]
  simp [h]

theorem toDigitsList_of_lt_100 {n : Nat} (h1 : 10 ≤ n) (h2 : n < 100) :
    toDigitsList n = [n / 10, n % 10] := by
  rw [toDigitsList]
  have h3 : ¬ n < 10 := by omega
  have h4 : n / 10 < 10 := by omega
  simp [h3, toDigitsList_of_lt h4]

theorem digitVal_digitChar {d : Nat} (h : d < 10) : digitVal (digitChar d) = d := by
  interval_cases d <;> decide

theorem isDigit_digitChar {d : Nat} (h : d < 10) : (digitChar d).isDigit = true := by
  interval_cases d <;> decide

theorem foldl_digits (n : Nat) :
    ∀ a : Nat,
      List.foldl (fun a c => a * 10 + digitVal c) a ((toDigitsList n).map digitChar)
        = a * 10 ^ (toDigitsList n).length + n := by
  induction n using Nat.strong_induction_on with
  | _ n ih =>
    intro a
    rw [toDigitsList]
    split
    · rename_i h
      simp [digitVal_digitChar h]
    · rename_i h
      rw [List.map_append, List.foldl_append]
      simp only [List.map_cons, List.map_nil, List.foldl_cons, List.foldl_nil,
        List.length_append, List.length_cons, List.length_nil]
      rw [ih (n / 10) (Nat.div_lt_self (by omega) (by omega)) a]
      rw [digitVal_digitChar (Nat.mod_lt n (by omega))]
      rw [Nat.zero_add, pow_succ]
      have hdm : 10 * (n / 10) + n % 10 = n := Nat.div_add_mod n 10
      ring_nf
      omega

theorem pyIntList_natRepr (n : Nat) : pyIntList (natRepr n).data = n := by
  have h := foldl_digits n 0
  simpa [pyIntList, natRepr] using h

theorem natRepr_all_digit (n : Nat) : ∀ c ∈ (natRepr n).data, c.isDigit = true := by
  intro c hc
  simp only [natRepr, String.data, List.mem_map] at hc
  obtain ⟨d, hd, rfl⟩ := hc
  exact isDigit_digitChar (toDigitsList_lt n d hd)

theorem natRepr_ne_nil (n : Nat) : (natRepr n).data ≠ [] := by
  simp [natRepr, toDigitsList_ne_nil]

theorem natRepr_length_of_lt {n : Nat} (h : n < 10) : (natRepr n).data.length = 1 := by
  simp [natRepr, toDigitsList_of_lt h]

theorem natRepr_length_of_lt_100 {n : Nat} (h1 : 10 ≤ n) (h2 : n < 100) :
    (natRepr n).data.length = 2 := by
  simp [natRepr, toDigitsList_of_lt_100 h1 h2]

/-! ### Timestamp Normalizer: `CommandProcessor._parse_timestamp` -/

/-- Match `\d+` at the head of the input (greedy, at least one digit) and
return the rest.  The classes involved in the source's timestamp regexes
(digits, `:`, whitespace) are disjoint, so the greedy munch is exact. -/
def munchDigits : List Char → Option (List Char)
  | c :: r => if c.isDigit then some (r.dropWhile Char.isDigit) else none
  | [] => none

/-- Python's `$` anchor: end of input, or just before one final newline. -/
def atEnd : List Char → Bool
  | [] => true
  | ['\n'] => true
  | _ => false

/-- `re.match(r'\d+:\d+:\d+', s)`: anchored at the start only. -/
def matchHMShead (l : List Char) : Bool :=
  match munchDigits l with
  | some (':' :: r1) =>
    match munchDigits r1 with
    | some (':' :: r2) => (munchDigits r2).isSome
    | _ => false
  | _ => false

/-- `re.match(r'\d+:\d+$', s)`. -/
def matchMMSSfull (l : List Char) : Bool :=
  match munchDigits l with
  | some (':' :: r1) =>
    match munchDigits r1 with
    | some r2 => atEnd r2
    | none => false
  | _ => false

/-- `re.match(r'\d+$', s)`. -/
def matchDigitsFull (l : List Char) : Bool :=
  match munchDigits l with
  | some r => atEnd r
  | none => false

/-- Python `f"{x:02d}"`. -/
def pad2 (x : Nat) : String := if x < 10 then "0" ++ natRepr x else natRepr x

/-- The bare-seconds branch of `_parse_timestamp`: `divmod(seconds, 60)` then
`divmod(minutes, 60)`, formatted `f"{hours:02d}:{minutes:02d}:{seconds:02d}"`. -/
def formatHMS (n : Nat) : String :=
  pad2 (n / 60 / 60) ++ ":" ++ pad2 (n / 60 % 60) ++ ":" ++ pad2 (n % 60)

/-- `CommandProcessor._parse_timestamp`: convert various timestamp formats to
`HH:MM:SS` (the bare-integer argument of `int(...)` is read off the digits
that `\d+$` matched). -/
def parseTimestamp (s : String) : String :=
  let l := s.data
  if matchHMShead l then s
  else if matchMMSSfull l then "00:" ++ s
  else if matchDigitsFull l then formatHMS (pyIntList (l.takeWhile Char.isDigit))
  else "00:00:00"

/-- Python `str.split(':')`. -/
def splitOnColon : List Char → List (List Char)
  | [] => [[]]
  | c :: r =>
    if c = ':' then [] :: splitOnColon r
    else
      match splitOnColon r with
      | [] => [[c]]
      | g :: gs => (c :: g) :: gs

/-- Python `int` on one colon-separated component, modelled on digit strings;
any other shape raises in Python and is `none` here. -/
def strToNat? (l : List Char) : Option Nat :=
  if l ≠ [] ∧ l.all Char.isDigit then some (pyIntList l) else none

/-- IEEE-754 double rounding (round to nearest, ties to even) of a
non-negative integer value: integers below `2^53` are exact; above, the
value is rounded to a multiple of the unit in the last place
`2^(log2 v - 52)`. -/
def roundFloat (v : Nat) : Nat :=
  if v < 2 ^ 53 then v
  else
    let e := v.log2 - 52
    let q := v / 2 ^ e
    let r := v % 2 ^ e
    let half := 2 ^ (e - 1)
    if r < half then q * 2 ^ e
    else if half < r then (q + 1) * 2 ^ e
    else if q % 2 = 0 then q * 2 ^ e else (q + 1) * 2 ^ e

/-- Python promoting an `int` to a `float` (`PyLong_AsDouble`): rounds to
the nearest double and raises `OverflowError` past the double range. -/
def intToFloat? (v : Nat) : Option Nat :=
  let r := roundFloat v
  if r < 2 ^ 1024 then some r else none

/-- Python `float` on a digit-string component: the decimal value rounded to
the nearest double.  Values that round past the double range become `inf` in
Python and are out of this model (`none`), as are non-digit shapes, on which
`float` raises; fractional seconds never arise from the parser's `\d`/`:`
tokens. -/
def strToFloat? (l : List Char) : Option Nat :=
  if l ≠ [] ∧ l.all Char.isDigit then
    let r := roundFloat (pyIntList l)
    if r < 2 ^ 1024 then some r else none
  else none

/-- Python `int + float`: the integer is promoted to a double (which may
raise) and the IEEE sum is rounded again. -/
def addIntFloat? (a f : Nat) : Option Nat :=
  match intToFloat? a with
  | none => none
  | some fa => some (roundFloat (fa + f))

/-- `VideoEditor._timestamp_to_seconds`: split on `:`; 3 parts give
`int(h)*3600 + int(m)*60 + float(s)` (exact int arithmetic, then a float
promotion and a double-precision addition), 2 parts `int(m)*60 + float(s)`,
otherwise `float` of the first part alone. -/
def tsToSeconds (s : String) : Option Nat :=
  match splitOnColon s.data with
  | [h, m, sec] => do
    let hv ← strToNat? h
    let mv ← strToNat? m
    let sv ← strToFloat? sec
    addIntFloat? (hv * 3600 + mv * 60) sv
  | [m, sec] => do
    let mv ← strToNat? m
    let sv ← strToFloat? sec
    addIntFloat? (mv * 60) sv
  | p =>
    match p.head? with
    | some p0 => strToFloat? p0
    | none => none

/-- The spec's notion of a valid normalized timestamp: three `:`-separated
components, hours a non-empty digit string (unbounded), minutes and seconds
zero-padded to exactly two digits with value below 60. -/
def isCanonicalHHMMSS (s : String) : Bool :=
  match splitOnColon s.data with
  | [h, m, sec] =>
    decide (h ≠ []) && h.all Char.isDigit &&
    decide (m.length = 2) && m.all Char.isDigit && decide (pyIntList m < 60) &&
    decide (sec.length = 2) && sec.all Char.isDigit && decide (pyIntList sec < 60)
  | _ => false

theorem splitOnColon_ne_nil (l : List Char) : splitOnColon l ≠ [] := by
  cases l with
  | nil => simp [splitOnColon]
  | cons c r =>
    simp only [splitOnColon]
    split
    · simp
    · split <;> simp

theorem splitOnColon_noColon (a : List Char) (h : ∀ c ∈ a, c ≠ ':') :
    splitOnColon a = [a] := by
  induction a with
  | nil => rfl
  | cons c a' ih =>
    have hc : c ≠ ':' := h c (by simp)
    rw [splitOnColon, if_neg hc, ih (fun x hx => h x (by simp [hx]))]

theorem splitOnColon_append (a l : List Char) (h : ∀ c ∈ a, c ≠ ':') :
    splitOnColon (a ++ ':' :: l) = a :: splitOnColon l := by
  induction a with
  | nil => simp [splitOnColon]
  | cons c a' ih =>
    have hc : c ≠ ':' := h c (by simp)
    rw [List.cons_append, splitOnColon, if_neg hc, ih (fun x hx => h x (by simp [hx]))]

theorem digit_ne_colon {c : Char} (h : c.isDigit = true) : c ≠ ':' := by
  rintro rfl
  exact absurd h (by decide)

theorem takeWhile_all {p : Char → Bool} {l : List Char} (h : ∀ c ∈ l, p c = true) :
    l.takeWhile p = l := by
  induction l with
  | nil => rfl
  | cons c r ih =>
    rw [List.takeWhile_cons, h c (by simp), ih (fun x hx => h x (by simp [hx]))]
    simp

theorem pad2_data_all_digit (x : Nat) : ∀ c ∈ (pad2 x).data, c.isDigit = true := by
  intro c hc
  unfold pad2 at hc
  split at hc
  · rw [String.data_append] at hc
    rcases List.mem_append.mp hc with h1 | h2
    · simp only [List.mem_singleton] at h1
      subst h1
      decide
    · exact natRepr_all_digit x c h2
  · exact natRepr_all_digit x c hc

theorem pad2_data_ne_nil (x : Nat) : (pad2 x).data ≠ [] := by
  unfold pad2
  split
  · rw [String.data_append]
    simp
  · exact natRepr_ne_nil x

theorem pad2_data_noColon (x : Nat) : ∀ c ∈ (pad2 x).data, c ≠ ':' :=
  fun c hc => digit_ne_colon (pad2_data_all_digit x c hc)

theorem pad2_length_of_lt_100 {x : Nat} (h : x < 100) : (pad2 x).data.length = 2 := by
  unfold pad2
  split
  · rename_i h10
    rw [String.data_append, List.length_append, natRepr_length_of_lt h10]
    rfl
  · rename_i h10
    exact natRepr_length_of_lt_100 (by omega) h

theorem pyIntList_cons_zero (l : List Char) : pyIntList ('0' :: l) = pyIntList l := by
  simp [pyIntList, List.foldl_cons]
  rfl

theorem pyIntList_pad2 (x : Nat) : pyIntList (pad2 x).data = x := by
  unfold pad2
  split
  · rw [String.data_append]
    have : ("0" : String).data = ['0'] := rfl
    rw [this, List.singleton_append, pyIntList_cons_zero, pyIntList_natRepr]
  · exact pyIntList_natRepr x

theorem strToNat?_pad2 (x : Nat) : strToNat? (pad2 x).data = some x := by
  unfold strToNat?
  rw [if_pos ⟨pad2_data_ne_nil x, List.all_eq_true.mpr (pad2_data_all_digit x)⟩]
  rw [pyIntList_pad2]

theorem formatHMS_data (n : Nat) :
    (formatHMS n).data
      = (pad2 (n / 60 / 60)).data ++ ':' :: ((pad2 (n / 60 % 60)).data
          ++ ':' :: (pad2 (n % 60)).data) := by
  unfold formatHMS
  simp [String.data_append]

theorem splitOnColon_formatHMS (n : Nat) :
    splitOnColon (formatHMS n).data
      = [(pad2 (n / 60 / 60)).data, (pad2 (n / 60 % 60)).data, (pad2 (n % 60)).data] := by
  rw [formatHMS_data,
    splitOnColon_append _ _ (pad2_data_noColon _),
    splitOnColon_append _ _ (pad2_data_noColon _),
    splitOnColon_noColon _ (pad2_data_noColon _)]

theorem log2_eq_of {v k : Nat} (h1 : 2 ^ k ≤ v) (h2 : v < 2 ^ (k + 1)) : v.log2 = k := by
  have hv : v ≠ 0 := by
    have : 0 < 2 ^ k := Nat.pos_pow_of_pos k (by omega)
    omega
  exact le_antisymm (Nat.lt_succ_iff.mp ((Nat.log2_lt hv).mpr h2)) ((Nat.le_log2 hv).mpr h1)

theorem roundFloat_of_lt {v : Nat} (h : v < 2 ^ 53) : roundFloat v = v := by
  unfold roundFloat
  rw [if_pos h]

theorem two_pow_53_lt : (2 : Nat) ^ 53 < 2 ^ 1024 := Nat.pow_lt_pow_right (by omega) (by omega)

theorem strToFloat?_pad2 {x : Nat} (h : x < 2 ^ 53) : strToFloat? (pad2 x).data = some x := by
  unfold strToFloat?
  rw [if_pos ⟨pad2_data_ne_nil x, List.all_eq_true.mpr (pad2_data_all_digit x)⟩]
  dsimp only
  rw [pyIntList_pad2, roundFloat_of_lt h, if_pos (lt_trans h two_pow_53_lt)]

theorem tsToSeconds_formatHMS (n : Nat) :
    tsToSeconds (formatHMS n) = addIntFloat? (n - n % 60) (n % 60) := by
  unfold tsToSeconds
  rw [splitOnColon_formatHMS]
  have hs : n % 60 < 2 ^ 53 := lt_trans (Nat.mod_lt n (by omega)) (by norm_num)
  simp only [strToNat?_pad2, strToFloat?_pad2 hs, Option.bind_eq_bind, Option.some_bind]
  congr 1
  omega

theorem isCanonicalHHMMSS_formatHMS (n : Nat) :
    isCanonicalHHMMSS (formatHMS n) = true := by
  unfold isCanonicalHHMMSS
  rw [splitOnColon_formatHMS]
  simp only [Bool.and_eq_true, decide_eq_true_eq, List.all_eq_true]
  refine ⟨⟨⟨⟨⟨⟨⟨pad2_data_ne_nil _, pad2_data_all_digit _⟩, ?_⟩, pad2_data_all_digit _⟩, ?_⟩,
    ?_⟩, pad2_data_all_digit _⟩, ?_⟩
  · exact pad2_length_of_lt_100 (by omega)
  · rw [pyIntList_pad2]
    omega
  · exact pad2_length_of_lt_100 (by omega)
  · rw [pyIntList_pad2]
    omega

theorem matchHMShead_digits {l : List Char} (h : ∀ c ∈ l, c.isDigit = true) :
    matchHMShead l = false := by
  cases l with
  | nil => rfl
  | cons c r =>
    have hc := h c (by simp)
    have hr : r.dropWhile Char.isDigit = [] :=
      List.dropWhile_eq_nil_iff.mpr (fun x hx => h x (by simp [hx]))
    simp [matchHMShead, munchDigits, hc, hr]

theorem matchMMSSfull_digits {l : List Char} (h : ∀ c ∈ l, c.isDigit = true) :
    matchMMSSfull l = false := by
  cases l with
  | nil => rfl
  | cons c r =>
    have hc := h c (by simp)
    have hr : r.dropWhile Char.isDigit = [] :=
      List.dropWhile_eq_nil_iff.mpr (fun x hx => h x (by simp [hx]))
    simp [matchMMSSfull, munchDigits, hc, hr]

theorem matchDigitsFull_digits {l : List Char} (hne : l ≠ [])
    (h : ∀ c ∈ l, c.isDigit = true) : matchDigitsFull l = true := by
  cases l with
  | nil => exact absurd rfl hne
  | cons c r =>
    have hc := h c (by simp)
    have hr : r.dropWhile Char.isDigit = [] :=
      List.dropWhile_eq_nil_iff.mpr (fun x hx => h x (by simp [hx]))
    simp [matchDigitsFull, munchDigits, hc, hr, atEnd]

/-- **C2** (corrected): the input `"0:99:99"` matches the `\d+:\d+:\d+` head
check and is returned unchanged by `_parse_timestamp`, with a seconds
component of 99: the normalizer does not validate or zero-pad inputs that
already contain colons. -/
theorem c2_counterexample :
    parseTimestamp "0:99:99" = "0:99:99" ∧ isCanonicalHHMMSS "0:99:99" = false := by
  constructor <;> decide

/-- **C2** (amended): for every input that matches neither of the two
colon-containing shapes (`\d+:\d+:\d+` head, `\d+:\d+$`) — in particular every
bare-digit input and every unrecognized input — the result of
`_parse_timestamp` is a valid `HH:MM:SS` string with minutes and seconds
zero-padded to two digits and below 60. -/
theorem c2_amended (s : String) (h1 : matchHMShead s.data = false)
    (h2 : matchMMSSfull s.data = false) :
    isCanonicalHHMMSS (parseTimestamp s) = true := by
  unfold parseTimestamp
  simp only [h1, h2, Bool.false_eq_true, if_false]
  split
  · exact isCanonicalHHMMSS_formatHMS _
  · decide

/-- Witness for `c2_amended` at the concrete bare-seconds input `"90"`. -/
theorem c2_amended_witness :
    matchHMShead ("90" : String).data = false ∧
      matchMMSSfull ("90" : String).data = false ∧
      isCanonicalHHMMSS (parseTimestamp "90") = true :=
  ⟨by decide, by decide, c2_amended "90" (by decide) (by decide)⟩

/-- `str(n)` always lands in the bare-digits branch of `_parse_timestamp`. -/
theorem parseTimestamp_natRepr (n : Nat) :
    parseTimestamp (natRepr n) = formatHMS n := by
  have hd := natRepr_all_digit n
  unfold parseTimestamp
  simp only [matchHMShead_digits hd, matchMMSSfull_digits hd,
    matchDigitsFull_digits (natRepr_ne_nil n) hd, Bool.false_eq_true, if_false, if_true]
  rw [takeWhile_all hd, pyIntList_natRepr]

/-- **C3** (corrected, counterexample): at `n = 2^53 + 1` the round-trip
fails.  `str(n)` normalizes to `2501999792983:36:33`; converting back forms
the exact integer `2501999792983*3600 + 36*60 = 9007199254740960`, promotes
it to a double (still exact), and adds `33.0` — the double-precision sum
rounds ties-to-even down to `9007199254740992 ≠ n`. -/
theorem c3_counterexample :
    tsToSeconds (parseTimestamp (natRepr 9007199254740993)) = some 9007199254740992 ∧
      (9007199254740992 : Nat) ≠ 9007199254740993 := by
  constructor
  · rw [parseTimestamp_natRepr, tsToSeconds_formatHMS]
    have h1 : (9007199254740993 : Nat) - 9007199254740993 % 60 = 9007199254740960 := by
      norm_num
    have h2 : (9007199254740993 : Nat) % 60 = 33 := by norm_num
    rw [h1, h2]
    have hr : roundFloat 9007199254740993 = 9007199254740992 := by
      have hl : Nat.log2 9007199254740993 = 53 := log2_eq_of (by norm_num) (by norm_num)
      unfold roundFloat
      rw [if_neg (by norm_num)]
      dsimp only
      rw [hl]
      norm_num
    unfold addIntFloat? intToFloat?
    dsimp only
    rw [roundFloat_of_lt (show (9007199254740960 : Nat) < 2 ^ 53 by norm_num)]
    rw [if_pos (lt_trans (show (9007199254740960 : Nat) < 2 ^ 53 by norm_num) two_pow_53_lt)]
    dsimp only
    norm_num [hr]
  · decide

/-- **C3** (corrected): for every `n` below `2^53` — the range in which every
integer is exactly representable as a double, so no rounding occurs — the
round-trip `toSeconds(normalize(str(n))) = n` holds. -/
theorem c3_amended (n : Nat) (hn : n < 2 ^ 53) :
    tsToSeconds (parseTimestamp (natRepr n)) = some n := by
  rw [parseTimestamp_natRepr, tsToSeconds_formatHMS]
  have h1 : n - n % 60 < 2 ^ 53 := by omega
  unfold addIntFloat? intToFloat?
  dsimp only
  rw [roundFloat_of_lt h1, if_pos (lt_trans h1 two_pow_53_lt)]
  dsimp only
  have h2 : n - n % 60 + n % 60 = n := by omega
  rw [h2, roundFloat_of_lt hn]

/-- Witness for `c3_amended` at `n = 90`. -/
theorem c3_amended_witness :
    (90 : Nat) < 2 ^ 53 ∧ tsToSeconds (parseTimestamp (natRepr 90)) = some 90 :=
  ⟨by norm_num, c3_amended 90 (by norm_num)⟩

/-! ### Command Parser: `CommandProcessor.process_command`

Each regex is embedded as a specialized matcher.  `re.search` is the
leftmost-start loop `searchPos`; lazy `.*?` is the shortest-skip loop
`lazySkip`; greedy pieces whose follow-set is disjoint from their character
class (`\d+` before `\s`, `\w+` before `\s`, …) are exact greedy munches;
the places where the engine genuinely backtracks (the `([^"\']+)` capture,
optional words like `saying`/`the`/`a`) carry explicit fallbacks in the
engine's preference order. -/

/-- Case-insensitive literal: strip `pat` (written lowercase) from the head,
comparing input characters lowercased (`re.IGNORECASE`). -/
def stripCI : List Char → List Char → Option (List Char)
  | [], l => some l
  | _ :: _, [] => none
  | p :: ps, c :: cs => if c.toLower = p then stripCI ps cs else none

/-- First alternative of an alternation that matches; the alternatives used in
the source all differ in their first letter, so at most one can strip. -/
def firstCI (pats : List (List Char)) (l : List Char) : Option (List Char) :=
  match pats with
  | [] => none
  | p :: ps =>
    match stripCI p l with
    | some r => some r
    | none => firstCI ps l

/-- `\s+`: at least one whitespace character, munched greedily. -/
def munchWs : List Char → Option (List Char)
  | c :: r => if c.isWhitespace then some (r.dropWhile Char.isWhitespace) else none
  | [] => none

def isWordChar (c : Char) : Bool := c.isAlphanum || c = '_'

/-- The time token `\d+:?\d*:?\d*`, munched greedily: (token, rest). -/
def timeToken (l : List Char) : Option (List Char × List Char) :=
  match l with
  | c :: _ =>
    if c.isDigit then
      let d1 := l.takeWhile Char.isDigit
      let r1 := l.dropWhile Char.isDigit
      match r1 with
      | ':' :: r2 =>
        let d2 := r2.takeWhile Char.isDigit
        let r3 := r2.dropWhile Char.isDigit
        match r3 with
        | ':' :: r4 =>
          let d3 := r4.takeWhile Char.isDigit
          some (d1 ++ ':' :: d2 ++ ':' :: d3, r4.dropWhile Char.isDigit)
        | _ => some (d1 ++ ':' :: d2, r3)
      | _ => some (d1, r1)
    else none
  | [] => none

/-- `re.search`: try the pattern at every start position, leftmost wins. -/
def searchPos (f : List Char → Option α) : List Char → Option α
  | [] => f []
  | l@(_ :: r) =>
    match f l with
    | some x => some x
    | none => searchPos f r

/-- Lazy `.*?`: try the continuation after skipping 0, 1, 2, … characters;
`.` does not match a newline. -/
def lazySkip (f : List Char → Option α) : List Char → Option α
  | [] => f []
  | l@(c :: r) =>
    match f l with
    | some x => some x
    | none => if c = '\n' then none else lazySkip f r

/-- `from\s+(\d+:?\d*:?\d*)\s+to\s+(\d+:?\d*:?\d*)` at the head. -/
def trimFromPart (l : List Char) : Option (List Char × List Char) := do
  let r1 ← stripCI "from".data l
  let r2 ← munchWs r1
  let (t1, r3) ← timeToken r2
  let r4 ← munchWs r3
  let r5 ← stripCI "to".data r4
  let r6 ← munchWs r5
  let (t2, _) ← timeToken r6
  pure (t1, t2)

/-- `re.search(r'(?:trim|cut).*?from\s+(…)\s+to\s+(…)', cmd, re.IGNORECASE)`:
groups (start, end). -/
def trimDetect (cmd : List Char) : Option (List Char × List Char) :=
  searchPos (fun l =>
    match firstCI ["trim".data, "cut".data] l with
    | some r => lazySkip trimFromPart r
    | none => none) cmd

def nonQuote (c : Char) : Bool := !(c = '"' || c = '\'')

/-- `(\w+)` at the head. -/
def wordAt (l : List Char) : Option (List Char) :=
  match l.takeWhile isWordChar with
  | [] => none
  | w => some w

/-- `(?:the\s+)?(\w+)`: the optional `the` is preferred, with fallback. -/
def theWord (l : List Char) : Option (List Char) :=
  match stripCI "the".data l >>= munchWs >>= wordAt with
  | some w => some w
  | none => wordAt l

/-- `["\']?\s+(?:at|in)\s+(?:the\s+)?(\w+)` after the captured text. -/
def addTextTail (l : List Char) : Option (List Char) :=
  let l1 := match l with
    | c :: rest => if c = '"' || c = '\'' then rest else l
    | [] => l
  do
    let r1 ← munchWs l1
    let r2 ← firstCI ["at".data, "in".data] r1
    let r3 ← munchWs r2
    theWord r3

/-- Greedy `([^"\']+)` with backtracking: `k` is the candidate capture length,
tried longest first. -/
def capLoop (l : List Char) : Nat → Option (List Char × List Char)
  | 0 => none
  | k + 1 =>
    match addTextTail (l.drop (k + 1)) with
    | some pos => some (l.take (k + 1), pos)
    | none => capLoop l k

/-- `\s+text\s+(?:saying\s+)?["\']?([^"\']+)` + tail, after the initial
`add|insert|place` already matched: groups (text, position). -/
def addTextBody (l : List Char) : Option (List Char × List Char) :=
  let attempt := fun (r : List Char) =>
    let r' := match r with
      | c :: rest => if c = '"' || c = '\'' then rest else r
      | [] => r
    capLoop r' (r'.takeWhile nonQuote).length
  match munchWs l with
  | none => none
  | some r1 =>
    match stripCI "text".data r1 with
    | none => none
    | some r2 =>
      match munchWs r2 with
      | none => none
      | some r3 =>
        match stripCI "saying".data r3 >>= munchWs >>= attempt with
        | some x => some x
        | none => attempt r3

/-- `re.search(r'(?:add|insert|place)\s+text\s+(?:saying\s+)?["\']?([^"\']+)
["\']?\s+(?:at|in)\s+(?:the\s+)?(\w+)', cmd, re.IGNORECASE)`. -/
def addTextDetect (cmd : List Char) : Option (List Char × List Char) :=
  searchPos (fun l =>
    match firstCI ["add".data, "insert".data, "place".data] l with
    | some r => addTextBody r
    | none => none) cmd

/-- `\s+(?:time|timestamp)?\s*(\d+:?\d*:?\d*)` after `at|from` matched. -/
def timeClauseBody (l : List Char) : Option (List Char) :=
  match munchWs l with
  | none => none
  | some r1 =>
    let fin := fun (r : List Char) =>
      (timeToken (r.dropWhile Char.isWhitespace)).map Prod.fst
    let tryPat := fun (p : String) =>
      match stripCI p.data r1 with
      | some r2 => fin r2
      | none => none
    match tryPat "time" with
    | some t => some t
    | none =>
      match tryPat "timestamp" with
      | some t => some t
      | none => fin r1

/-- `re.search(r'(?:at|from)\s+(?:time|timestamp)?\s*(\d+:?\d*:?\d*)', …)`. -/
def timeClauseDetect (cmd : List Char) : Option (List Char) :=
  searchPos (fun l =>
    match firstCI ["at".data, "from".data] l with
    | some r => timeClauseBody r
    | none => none) cmd

/-- `(\w+)\s+transition` at the head. -/
def transitionWord (l : List Char) : Option (List Char) :=
  match l.takeWhile isWordChar with
  | [] => none
  | w =>
    match munchWs (l.dropWhile isWordChar) with
    | none => none
    | some r1 =>
      match stripCI "transition".data r1 with
      | some _ => some w
      | none => none

/-- `\s+(?:a\s+)?(\w+)\s+transition` after `add|insert|apply` matched. -/
def transitionBody (l : List Char) : Option (List Char) :=
  match munchWs l with
  | none => none
  | some r1 =>
    match stripCI "a".data r1 >>= munchWs >>= transitionWord with
    | some w => some w
    | none => transitionWord r1

/-- `re.search(r'(?:add|insert|apply)\s+(?:a\s+)?(\w+)\s+transition', …)`. -/
def transitionDetect (cmd : List Char) : Option (List Char) :=
  searchPos (fun l =>
    match firstCI ["add".data, "insert".data, "apply".data] l with
    | some r => transitionBody r
    | none => none) cmd

def isDigitOrDot (c : Char) : Bool := c.isDigit || c = '.'

/-- `speed\s+(?:to|by)\s+([\d\.]+)(?:x)?` after the word `speed` matched. -/
def speedTail (l : List Char) : Option (List Char) :=
  match munchWs l with
  | none => none
  | some r1 =>
    match firstCI ["to".data, "by".data] r1 with
    | none => none
    | some r2 =>
      match munchWs r2 with
      | none => none
      | some r3 =>
        match r3.takeWhile isDigitOrDot with
        | [] => none
        | t => some t

/-- `\s+(?:the\s+)?speed…` after `change|set|adjust` matched. -/
def speedBody (l : List Char) : Option (List Char) :=
  let afterSpeed := fun (r : List Char) =>
    match stripCI "speed".data r with
    | some r2 => speedTail r2
    | none => none
  match munchWs l with
  | none => none
  | some r1 =>
    match stripCI "the".data r1 >>= munchWs with
    | some r3 =>
      match afterSpeed r3 with
      | some t => some t
      | none => afterSpeed r1
    | none => afterSpeed r1

/-- `re.search(r'(?:change|set|adjust)\s+(?:the\s+)?speed\s+(?:to|by)\s+([\d\.]+)(?:x)?', …)`. -/
def speedDetect (cmd : List Char) : Option (List Char) :=
  searchPos (fun l =>
    match firstCI ["change".data, "set".data, "adjust".data] l with
    | some r => speedBody r
    | none => none) cmd

/-- `re.search(r'crop', cmd, re.IGNORECASE)`. -/
def containsCrop (cmd : List Char) : Bool :=
  (searchPos (fun l => (stripCI "crop".data l).map (fun _ => ())) cmd).isSome

/-- The three-character extension alternation `(?:mp4|mov|avi|mkv)`. -/
def extCheck (l : List Char) : Option (List Char) :=
  match firstCI ["mp4".data, "mov".data, "avi".data, "mkv".data] l with
  | some _ => some (l.take 3)
  | none => none

/-- Lazy `([^"\']+?\.(?:mp4|mov|avi|mkv))`: shortest non-quote run followed by
`.` and a known extension; `acc` is the run consumed so far. -/
def fnameScan (acc : List Char) : List Char → Option (List Char)
  | [] => none
  | c :: r =>
    if c = '"' || c = '\'' then none
    else
      match r with
      | '.' :: r2 =>
        match extCheck r2 with
        | some ext => some ((acc ++ [c]) ++ '.' :: ext)
        | none => fnameScan (acc ++ [c]) r
      | _ => fnameScan (acc ++ [c]) r

/-- `CommandProcessor._extract_filename`:
`re.search(r'(?:file|video)\s+["\']?([^"\']+?\.(?:mp4|mov|avi|mkv))["\']?', …)`;
the captured name overrides the caller-supplied default file. -/
def extractFilename (text : List Char) (defaultFile : String) : String :=
  match searchPos (fun l =>
      match firstCI ["file".data, "video".data] l with
      | some r =>
        match munchWs r with
        | some r1 =>
          let r2 := match r1 with
            | c :: rest => if c = '"' || c = '\'' then rest else r1
            | [] => r1
          fnameScan [] r2
        | none => none
      | none => none) text with
  | some f => String.mk f
  | none => defaultFile

/-- `os.path.basename` (POSIX): everything after the last `/`. -/
def basename (s : String) : String :=
  String.mk ((s.data.reverse.takeWhile (fun c => c ≠ '/')).reverse)

def lowerStr (l : List Char) : String := String.mk (l.map Char.toLower)

/-- Model of Python `float(token)` followed by str-formatting, for the tokens
`[\d\.]+` admits: a second `.` (or a lone `.`) raises `ValueError` (`none`);
otherwise the value prints as a canonical decimal (`"2"` gives `"2.0"`,
`"05.10"` gives `"5.1"`), exact within the float's decimal round-trip range. -/
def pyFloatFormat (t : List Char) : Option String :=
  let intPart := t.takeWhile Char.isDigit
  let rest := t.dropWhile Char.isDigit
  let canonInt := fun (l : List Char) =>
    match l.dropWhile (fun c => c = '0') with
    | [] => ['0']
    | l' => l'
  let canonFrac := fun (l : List Char) =>
    match (l.reverse.dropWhile (fun c => c = '0')).reverse with
    | [] => ['0']
    | l' => l'
  match rest with
  | [] => if t = [] then none else some (String.mk (canonInt intPart ++ ['.', '0']))
  | '.' :: frac =>
    if frac.all Char.isDigit then
      if intPart = [] ∧ frac = [] then none
      else some (String.mk (canonInt intPart ++ '.' :: canonFrac frac))
    else none
  | _ => none

/-- The structured editing instruction `process_command` returns; fields
absent from a given action's dict are `none`. -/
structure EditInstruction where
  action : String
  file_name : String
  start_time : Option String := none
  end_time : Option String := none
  text : Option String := none
  position : Option String := none
  time : Option String := none
  transition_type : Option String := none
  speed_factor : Option String := none
  output_file : Option String := none
  original_command : Option String := none
  error : Option String := none
deriving DecidableEq, Repr

/-- `CommandProcessor.process_command`: the five intent detectors in source
order.  `none` models the uncaught `ValueError` that `float(...)` raises on a
malformed speed token. -/
def processCommand (commandText currentFile : String) : Option EditInstruction :=
  let cmd := commandText.data
  match trimDetect cmd with
  | some (t1, t2) =>
    some { action := "trim",
           file_name := extractFilename cmd currentFile,
           start_time := some (parseTimestamp (String.mk t1)),
           end_time := some (parseTimestamp (String.mk t2)),
           output_file := some ("trimmed_" ++ basename currentFile) }
  | none =>
  match addTextDetect cmd with
  | some (txt, pos) =>
    let timestamp := match timeClauseDetect cmd with
      | some t => parseTimestamp (String.mk t)
      | none => "00:00:00"
    some { action := "add_text",
           file_name := extractFilename cmd currentFile,
           text := some (String.mk txt),
           position := some (lowerStr pos),
           time := some timestamp,
           output_file := some ("text_" ++ basename currentFile) }
  | none =>
  match transitionDetect cmd with
  | some ty =>
    let transitionType := lowerStr ty
    let timestamp := match timeClauseDetect cmd with
      | some t => parseTimestamp (String.mk t)
      | none => "00:00:00"
    some { action := "add_transition",
           file_name := extractFilename cmd currentFile,
           transition_type := some transitionType,
           time := some timestamp,
           output_file := some (transitionType ++ "_" ++ basename currentFile) }
  | none =>
  match speedDetect cmd with
  | some tok =>
    match pyFloatFormat tok with
    | some sf =>
      some { action := "adjust_speed",
             file_name := extractFilename cmd currentFile,
             speed_factor := some sf,
             output_file := some ("speed" ++ sf ++ "x_" ++ basename currentFile) }
    | none => none
  | none =>
  if containsCrop cmd then
    some { action := "crop",
           file_name := extractFilename cmd currentFile,
           output_file := some ("cropped_" ++ basename currentFile) }
  else
    some { action := "unknown",
           file_name := extractFilename cmd currentFile,
           original_command := some commandText,
           error := some "Could not determine specific edit command" }

/-! ### Output-file suffixing: `VideoEditor.process_edit` lines 181-184 -/

def lastIdxAux (ch : Char) : List Char → Nat → Option Nat → Option Nat
  | [], _, acc => acc
  | x :: xs, i, acc => lastIdxAux ch xs (i + 1) (if x = ch then some i else acc)

/-- Python `str.rfind`, as an `Option`al index. -/
def lastIdxOf (ch : Char) (l : List Char) : Option Nat := lastIdxAux ch l 0 none

/-- `os.path.splitext` (POSIX): split at the last `.`, provided it lies after
the last `/` and the final component does not consist of leading dots only. -/
def splitext (p : String) : String × String :=
  let l := p.data
  let sep1 : Nat := match lastIdxOf '/' l with | some i => i + 1 | none => 0
  match lastIdxOf '.' l with
  | some dotIdx =>
    if sep1 ≤ dotIdx ∧ ((l.drop sep1).take (dotIdx - sep1)).any (fun c => c ≠ '.') then
      (String.mk (l.take dotIdx), String.mk (l.drop dotIdx))
    else (p, "")
  | none => (p, "")

/-- The timestamp-suffixing step of `VideoEditor.process_edit`:
`name, ext = os.path.splitext(output_file)` then `f"{name}_{timestamp}{ext}"`. -/
def addTimestampSuffix (outputFile ts : String) : String :=
  (splitext outputFile).1 ++ "_" ++ ts ++ (splitext outputFile).2

theorem mk_data (s : String) : String.mk s.data = s := by
  cases s
  rfl

theorem mk_append (a b : List Char) : String.mk a ++ String.mk b = String.mk (a ++ b) := rfl

theorem append_empty_str (s : String) : s ++ "" = s := by
  cases s with
  | mk l => rw [show ("" : String) = String.mk [] from rfl, mk_append, List.append_nil]

theorem splitext_recombine (p : String) : (splitext p).1 ++ (splitext p).2 = p := by
  unfold splitext
  dsimp only
  split
  · split
    · rw [mk_append, List.take_append_drop, mk_data]
    · exact append_empty_str p
  · exact append_empty_str p

/-- The output-file naming rule of each detector: a pure function of the
action tag, the basename of the caller's current file, and — for transitions
and speed adjustment — the action's own parameter. -/
def outputBase (action baseCur : String) (transitionType speedStr : Option String) : String :=
  match action with
  | "trim" => "trimmed_" ++ baseCur
  | "add_text" => "text_" ++ baseCur
  | "add_transition" => transitionType.getD "" ++ "_" ++ baseCur
  | "adjust_speed" => "speed" ++ speedStr.getD "" ++ "x_" ++ baseCur
  | "crop" => "cropped_" ++ baseCur
  | _ => ""

/-! ### Parser claims -/

/-- **C1** (corrected, counterexample): on
`"Trim the file vacation.mp4 from 1:30 to 2:45"` with current file
`"default_video.mp4"` the parser does NOT return start time `"00:01:30"`
(the `MM:SS` branch prefixes `"00:"` without re-padding the minutes), and the
output file base is NOT `"trimmed_vacation.mp4"` (it is derived from the
current file, not from the extracted source file). -/
theorem c1_counterexample :
    (processCommand "Trim the file vacation.mp4 from 1:30 to 2:45"
        "default_video.mp4").map EditInstruction.start_time ≠ some (some "00:01:30") ∧
      (processCommand "Trim the file vacation.mp4 from 1:30 to 2:45"
        "default_video.mp4").map EditInstruction.output_file
        ≠ some (some "trimmed_vacation.mp4") := by
  constructor <;> decide

/-- **C1** (amended): on that command the parser returns action `trim`,
source file `"vacation.mp4"`, start time `"00:1:30"`, end time `"00:2:45"`,
and output file base `"trimmed_default_video.mp4"`. -/
theorem c1_amended :
    processCommand "Trim the file vacation.mp4 from 1:30 to 2:45" "default_video.mp4"
      = some { action := "trim",
               file_name := "vacation.mp4",
               start_time := some "00:1:30",
               end_time := some "00:2:45",
               output_file := some "trimmed_default_video.mp4" } := by
  decide

/-- **C4** (corrected, counterexample): a command that contains a clause the
add-text detector matches AND the substring `crop` can still be classified
`trim`, because the trim detector runs first. -/
theorem c4_counterexample :
    addTextDetect ("cut the video from 1 to 2 then add text hi at the center and crop it"
        : String).data
      = some ("hi".data, "center".data) ∧
    containsCrop ("cut the video from 1 to 2 then add text hi at the center and crop it"
        : String).data = true ∧
    (processCommand "cut the video from 1 to 2 then add text hi at the center and crop it"
        "a.mp4").map EditInstruction.action = some "trim" ∧
    ("trim" : String) ≠ "add_text" := by
  refine ⟨by decide, by decide, by decide, by decide⟩

/-- **C4** (amended): when the add-text detector matches, the command is
classified `add_text` provided no earlier detector (trim) matched, and it is
never classified `crop`, whether or not the text contains `crop`. -/
theorem c4_amended (commandText currentFile : String) :
    (∀ r, trimDetect commandText.data = none → addTextDetect commandText.data = some r →
      (processCommand commandText currentFile).map EditInstruction.action
        = some "add_text") ∧
    (∀ r, addTextDetect commandText.data = some r →
      (processCommand commandText currentFile).map EditInstruction.action
        ≠ some "crop") := by
  constructor
  · rintro ⟨t, p⟩ h1 h2
    simp only [processCommand, h1, h2]
    rfl
  · rintro ⟨t, p⟩ h2
    cases h1 : trimDetect commandText.data with
    | some r =>
      obtain ⟨t1, t2⟩ := r
      simp only [processCommand, h1]
      simp
    | none =>
      simp only [processCommand, h1, h2]
      simp

/-- Witness for `c4_amended` on `"Add text saying Welcome at the center"`. -/
theorem c4_amended_witness :
    trimDetect ("Add text saying Welcome at the center" : String).data = none ∧
      addTextDetect ("Add text saying Welcome at the center" : String).data
        = some ("Welcome".data, "center".data) ∧
      (processCommand "Add text saying Welcome at the center" "v.mp4").map
        EditInstruction.action = some "add_text" :=
  ⟨by decide, by decide,
    (c4_amended "Add text saying Welcome at the center" "v.mp4").1
      ("Welcome".data, "center".data) (by decide) (by decide)⟩

/-- **C8** (confirmed): when none of the five detectors matches, the parser
returns action `unknown` with the error field set and the original command
preserved verbatim. -/
theorem c8_unknown (commandText currentFile : String)
    (h1 : trimDetect commandText.data = none)
    (h2 : addTextDetect commandText.data = none)
    (h3 : transitionDetect commandText.data = none)
    (h4 : speedDetect commandText.data = none)
    (h5 : containsCrop commandText.data = false) :
    processCommand commandText currentFile
      = some { action := "unknown",
               file_name := extractFilename commandText.data currentFile,
               original_command := some commandText,
               error := some "Could not determine specific edit command" } := by
  simp only [processCommand, h1, h2, h3, h4, h5]
  simp

/-- Witness for `c8_unknown` on `"blah blah nonsense"`. -/
theorem c8_unknown_witness :
    trimDetect ("blah blah nonsense" : String).data = none ∧
      addTextDetect ("blah blah nonsense" : String).data = none ∧
      transitionDetect ("blah blah nonsense" : String).data = none ∧
      speedDetect ("blah blah nonsense" : String).data = none ∧
      containsCrop ("blah blah nonsense" : String).data = false ∧
      processCommand "blah blah nonsense" "default_video.mp4"
        = some { action := "unknown",
                 file_name := extractFilename ("blah blah nonsense" : String).data
                   "default_video.mp4",
                 original_command := some "blah blah nonsense",
                 error := some "Could not determine specific edit command" } :=
  ⟨by decide, by decide, by decide, by decide, by decide,
    c8_unknown "blah blah nonsense" "default_video.mp4"
      (by decide) (by decide) (by decide) (by decide) (by decide)⟩

/-- **C5** (corrected, counterexample): the pre-suffix output file is NOT a
function of (action, source file): the same command, parsed with the same
resulting action and source file but different current files, yields
different output files. -/
theorem c5_counterexample :
    (processCommand "Trim the file vacation.mp4 from 1:30 to 2:45" "a.mp4").map
        EditInstruction.action
      = (processCommand "Trim the file vacation.mp4 from 1:30 to 2:45" "b.mp4").map
        EditInstruction.action ∧
    (processCommand "Trim the file vacation.mp4 from 1:30 to 2:45" "a.mp4").map
        EditInstruction.file_name
      = (processCommand "Trim the file vacation.mp4 from 1:30 to 2:45" "b.mp4").map
        EditInstruction.file_name ∧
    (processCommand "Trim the file vacation.mp4 from 1:30 to 2:45" "a.mp4").map
        EditInstruction.output_file
      ≠ (processCommand "Trim the file vacation.mp4 from 1:30 to 2:45" "b.mp4").map
        EditInstruction.output_file := by
  refine ⟨by decide, by decide, by decide⟩

/-- **C5** (amended): the pre-suffix output file is a deterministic pure
function of the action, the basename of the caller's CURRENT file, and the
action's own parameter (transition type or speed factor); and the
timestamp-suffixing step inserts `_<timestamp>` between the `splitext` base
name and extension, whose concatenation is the original name. -/
theorem c5_amended :
    (∀ commandText currentFile ins,
      processCommand commandText currentFile = some ins → ins.action ≠ "unknown" →
        ins.output_file
          = some (outputBase ins.action (basename currentFile)
              ins.transition_type ins.speed_factor)) ∧
    (∀ f ts, (splitext f).1 ++ (splitext f).2 = f ∧
      addTimestampSuffix f ts = (splitext f).1 ++ ("_" ++ ts) ++ (splitext f).2) := by
  constructor
  · intro commandText currentFile ins h hne
    simp only [processCommand] at h
    repeat' split at h
    all_goals
      first
        | (obtain rfl := Option.some.inj h; rfl)
        | (obtain rfl := Option.some.inj h; exact absurd rfl hne)
        | exact Option.noConfusion h
  · intro f ts
    refine ⟨splitext_recombine f, ?_⟩
    unfold addTimestampSuffix
    simp [String.append_assoc]

/-- Witness for `c5_amended` on the command `"crop it"`. -/
theorem c5_amended_witness :
    processCommand "crop it" "v.mp4"
        = some { action := "crop", file_name := "v.mp4",
                 output_file := some "cropped_v.mp4" } ∧
      ({ action := "crop", file_name := "v.mp4",
         output_file := some "cropped_v.mp4" : EditInstruction }).output_file
        = some (outputBase "crop" (basename "v.mp4") none none) ∧
      (splitext "cropped_v.mp4").1 ++ (splitext "cropped_v.mp4").2 = "cropped_v.mp4" :=
  ⟨by decide,
    c5_amended.1 "crop it" "v.mp4"
      { action := "crop", file_name := "v.mp4", output_file := some "cropped_v.mp4" }
      (by decide) (by decide),
    (c5_amended.2 "cropped_v.mp4" "20240101_000000").1⟩

/-! ### Edit Dispatcher: `VideoEditor.process_edit` / `_process_with_moviepy`

The external MoviePy library is an oracle whose calls may throw; `mpBody` is
the `try`-block (its `Except` error is the raised exception, the trace the
external calls made so far), `processWithMoviepy` adds the `except` clause. -/

structure Clip where
  id : Nat
  duration : Nat
deriving DecidableEq, Repr

/-- Trace of calls into the external library (clips named by id). -/
inductive MPCall where
  | openClip (file : String)
  | subclip (c : Nat) (s e : Nat)
  | overlayText (c : Nat) (text pos : String) (start : Nat) (dur : Int)
  | fadein (c : Nat) (d : Nat)
  | speedx (c : Nat) (factor : String)
  | write (c : Nat) (out : String)
  | close (c : Nat)
deriving DecidableEq, Repr

def isClose : MPCall → Bool
  | .close _ => true
  | _ => false

/-- The external library's behaviour: each operation either yields a clip (a
fresh or the same object) or raises. -/
structure MPOracle where
  openClip : String → Except String Clip
  subclip : Clip → Nat → Nat → Except String Clip
  overlayText : Clip → String → String → Nat → Int → Except String Clip
  fadein : Clip → Nat → Except String Clip
  speedx : Clip → String → Except String Clip
  writeFile : Clip → String → Except String Unit

/-- The tail of every supported action: `write_videofile`, then
`clip.close()` and, when the result clip is a different object,
`result_clip.close()` (source lines 257-274). -/
def mpFinish (o : MPOracle) (action fileName outputFile : String) (clip rc : Clip)
    (tr : List MPCall) : Except String (String × Option String) × List MPCall :=
  match o.writeFile rc outputFile with
  | .error e => (.error e, tr ++ [.write rc.id outputFile])
  | .ok _ =>
    (.ok ("Successfully applied " ++ action ++ " to " ++ fileName ++ " and saved as "
        ++ outputFile, some outputFile),
      tr ++ [.write rc.id outputFile]
        ++ (if rc.id = clip.id then [MPCall.close clip.id]
            else [MPCall.close clip.id, MPCall.close rc.id]))

/-- The `try`-block of `VideoEditor._process_with_moviepy`.  A missing
`end_time` defaults to the clip's duration (`str(clip.duration)` round-trips
through `_timestamp_to_seconds`); an unparsable timestamp raises. -/
def mpBody (o : MPOracle) (action fileName outputFile : String) (ins : EditInstruction) :
    Except String (String × Option String) × List MPCall :=
  match o.openClip fileName with
  | .error e => (.error e, [.openClip fileName])
  | .ok clip =>
    let tr0 : List MPCall := [.openClip fileName]
    if action = "trim" then
      match tsToSeconds (ins.start_time.getD "00:00:00") with
      | none => (.error "invalid literal", tr0)
      | some s =>
        match (match ins.end_time with
               | some t => tsToSeconds t
               | none => some clip.duration) with
        | none => (.error "invalid literal", tr0)
        | some e =>
          match o.subclip clip s e with
          | .error msg => (.error msg, tr0 ++ [.subclip clip.id s e])
          | .ok rc =>
            mpFinish o action fileName outputFile clip rc (tr0 ++ [.subclip clip.id s e])
    else if action = "add_text" then
      let text := ins.text.getD "Sample Text"
      let pos := ins.position.getD "center"
      match tsToSeconds (ins.time.getD "00:00:00") with
      | none => (.error "invalid literal", tr0)
      | some t =>
        let dur : Int := min 5 ((clip.duration : Int) - (t : Int))
        match o.overlayText clip text pos t dur with
        | .error msg => (.error msg, tr0 ++ [.overlayText clip.id text pos t dur])
        | .ok rc =>
          mpFinish o action fileName outputFile clip rc
            (tr0 ++ [.overlayText clip.id text pos t dur])
    else if action = "add_transition" then
      let ty := ins.transition_type.getD "fade"
      if ty = "fade" then
        match o.fadein clip 2 with
        | .error msg => (.error msg, tr0 ++ [.fadein clip.id 2])
        | .ok rc => mpFinish o action fileName outputFile clip rc (tr0 ++ [.fadein clip.id 2])
      else
        mpFinish o action fileName outputFile clip clip tr0
    else if action = "adjust_speed" then
      let sf := ins.speed_factor.getD "1.0"
      match o.speedx clip sf with
      | .error msg => (.error msg, tr0 ++ [.speedx clip.id sf])
      | .ok rc => mpFinish o action fileName outputFile clip rc (tr0 ++ [.speedx clip.id sf])
    else
      (.ok ("Action '" ++ action ++ "' not supported with MoviePy", none), tr0)

/-- `VideoEditor._process_with_moviepy`: the `try`-block plus its `except`
clause, which converts any raised exception to a textual error and `None`. -/
def processWithMoviepy (o : MPOracle) (action fileName outputFile : String)
    (ins : EditInstruction) : (String × Option String) × List MPCall :=
  match mpBody o action fileName outputFile ins with
  | (.ok res, tr) => (res, tr)
  | (.error e, tr) => (("Error processing video with MoviePy: " ++ e, none), tr)

/-- `VideoEditor._simulate_editing` (console echo omitted): always succeeds
with the already-suffixed output file. -/
def simulateEditing (action fileName outputFile : String) : String × Option String :=
  ("Successfully applied " ++ action ++ " to " ++ fileName ++ " and saved as " ++ outputFile,
    some outputFile)

/-- `VideoEditor.process_edit` on an instruction record: timestamp-suffix the
output name, then delegate to MoviePy only when the library is present AND
the source file exists; otherwise simulate.  `fileExists` is the oracle for
`os.path.exists(file_name)`. -/
def processEdit (o : MPOracle) (editorType : String) (fileExists : Bool) (nowTs : String)
    (ins : EditInstruction) : (String × Option String) × List MPCall :=
  let outputFile := addTimestampSuffix (ins.output_file.getD ("output_" ++ ins.file_name)) nowTs
  if editorType = "moviepy" ∧ fileExists then
    processWithMoviepy o ins.action ins.file_name outputFile ins
  else
    (simulateEditing ins.action ins.file_name outputFile, [])

/-- The caller's current-file update (`VoiceVideoEditor.process_command`,
lines 346-354): `if output_file:` — only a truthy (non-empty, non-`None`)
output file moves the pointer. -/
def currentAfter (cur : String) (result : String × Option String) : String :=
  match result.2 with
  | some f => if f = "" then cur else f
  | none => cur

theorem processWithMoviepy_trace (o : MPOracle) (action fileName outputFile : String)
    (ins : EditInstruction) :
    (processWithMoviepy o action fileName outputFile ins).2
      = (mpBody o action fileName outputFile ins).2 := by
  unfold processWithMoviepy
  cases hb : mpBody o action fileName outputFile ins with
  | mk r tr => cases r <;> rfl

/-- The resource-release discipline actually implemented: `close` calls
appear in the trace exactly on the path where `write_videofile` completed. -/
def tracePolicy : Except String (String × Option String) × List MPCall → Prop
  | (.error _, tr) => tr.filter isClose = []
  | (.ok (_, none), tr) => tr.filter isClose = []
  | (.ok (_, some _), tr) => ∃ i, MPCall.close i ∈ tr

theorem mpFinish_tracePolicy (o : MPOracle) (action fileName outputFile : String)
    (clip rc : Clip) (tr : List MPCall) (h : tr.filter isClose = []) :
    tracePolicy (mpFinish o action fileName outputFile clip rc tr) := by
  unfold mpFinish
  cases hw : o.writeFile rc outputFile with
  | error e =>
    simp only [tracePolicy, List.filter_append, h]
    simp [isClose]
  | ok u =>
    simp only [tracePolicy]
    exact ⟨clip.id, by split <;> simp⟩

theorem mpBody_tracePolicy (o : MPOracle) (action fileName outputFile : String)
    (ins : EditInstruction) :
    tracePolicy (mpBody o action fileName outputFile ins) := by
  unfold mpBody
  cases ho : o.openClip fileName with
  | error e => simp [tracePolicy, isClose]
  | ok clip =>
    dsimp only
    split
    · cases h1 : tsToSeconds (ins.start_time.getD "00:00:00") with
      | none => simp [tracePolicy, isClose]
      | some s =>
        dsimp only
        cases h2 : (match ins.end_time with
                    | some t => tsToSeconds t
                    | none => some clip.duration) with
        | none => simp [tracePolicy, isClose]
        | some e2 =>
          dsimp only
          cases h3 : o.subclip clip s e2 with
          | error msg => simp [tracePolicy, isClose]
          | ok rc =>
            dsimp only
            exact mpFinish_tracePolicy o _ fileName outputFile clip rc _ (by simp [isClose])
    · split
      · cases h1 : tsToSeconds (ins.time.getD "00:00:00") with
        | none => simp [tracePolicy, isClose]
        | some t =>
          dsimp only
          cases h2 : o.overlayText clip (ins.text.getD "Sample Text")
              (ins.position.getD "center") t (min 5 ((clip.duration : Int) - (t : Int))) with
          | error msg => simp [tracePolicy, isClose]
          | ok rc =>
            dsimp only
            exact mpFinish_tracePolicy o _ fileName outputFile clip rc _ (by simp [isClose])
      · split
        · split
          · cases h1 : o.fadein clip 2 with
            | error msg => simp [tracePolicy, isClose]
            | ok rc =>
              dsimp only
              exact mpFinish_tracePolicy o _ fileName outputFile clip rc _ (by simp [isClose])
          · exact mpFinish_tracePolicy o _ fileName outputFile clip clip _ (by simp [isClose])
        · split
          · cases h1 : o.speedx clip (ins.speed_factor.getD "1.0") with
            | error msg => simp [tracePolicy, isClose]
            | ok rc =>
              dsimp only
              exact mpFinish_tracePolicy o _ fileName outputFile clip rc _ (by simp [isClose])
          · simp [tracePolicy, isClose]

/-- Sample oracle that raises on every call. -/
def failingOracle : MPOracle where
  openClip := fun _ => .error "boom"
  subclip := fun _ _ _ => .error "boom"
  overlayText := fun _ _ _ _ _ => .error "boom"
  fadein := fun _ _ => .error "boom"
  speedx := fun _ _ => .error "boom"
  writeFile := fun _ _ => .error "boom"

/-- Sample oracle on which every call succeeds: the source clip has id 1 and
duration 5 seconds, derived clips have id 2. -/
def okOracle : MPOracle where
  openClip := fun _ => .ok { id := 1, duration := 5 }
  subclip := fun _ s e => .ok { id := 2, duration := e - s }
  overlayText := fun c _ _ _ _ => .ok { id := 2, duration := c.duration }
  fadein := fun c _ => .ok { id := 2, duration := c.duration }
  speedx := fun c _ => .ok { id := 2, duration := c.duration }
  writeFile := fun _ _ => .ok ()

/-- Sample oracle on which only the final `write_videofile` raises. -/
def writeFailOracle : MPOracle where
  openClip := fun _ => .ok { id := 1, duration := 5 }
  subclip := fun _ s e => .ok { id := 2, duration := e - s }
  overlayText := fun c _ _ _ _ => .ok { id := 2, duration := c.duration }
  fadein := fun c _ => .ok { id := 2, duration := c.duration }
  speedx := fun c _ => .ok { id := 2, duration := c.duration }
  writeFile := fun _ _ => .error "disk full"

/-! ### Dispatcher claims -/

/-- **C6** (confirmed): whenever the `try`-block of `_process_with_moviepy`
raises — any exception from the external media library — the dispatcher
returns the textual error message first and `None` second; and whenever the
second component is `None`, the caller's current-file pointer is unchanged. -/
theorem c6_error_policy (o : MPOracle) (action fileName outputFile : String)
    (ins : EditInstruction) (cur e : String) (tr : List MPCall)
    (h : mpBody o action fileName outputFile ins = (.error e, tr)) :
    (processWithMoviepy o action fileName outputFile ins).1
        = ("Error processing video with MoviePy: " ++ e, none) ∧
      ∀ msg : String, currentAfter cur (msg, none) = cur := by
  constructor
  · unfold processWithMoviepy
    rw [h]
  · intro msg
    rfl

/-- Witness for `c6_error_policy`: the all-raising oracle on a trim. -/
theorem c6_error_policy_witness :
    mpBody failingOracle "trim" "v.mp4" "out.mp4" { action := "trim", file_name := "v.mp4" }
        = (.error "boom", [.openClip "v.mp4"]) ∧
      (processWithMoviepy failingOracle "trim" "v.mp4" "out.mp4"
          { action := "trim", file_name := "v.mp4" }).1
        = ("Error processing video with MoviePy: " ++ "boom", none) ∧
      currentAfter "cur.mp4" ("an error message", none) = "cur.mp4" :=
  ⟨by rfl,
    (c6_error_policy failingOracle "trim" "v.mp4" "out.mp4"
      { action := "trim", file_name := "v.mp4" } "cur.mp4" "boom"
      [.openClip "v.mp4"] (by rfl)).1,
    (c6_error_policy failingOracle "trim" "v.mp4" "out.mp4"
      { action := "trim", file_name := "v.mp4" } "cur.mp4" "boom"
      [.openClip "v.mp4"] (by rfl)).2 "an error message"⟩

set_option maxRecDepth 40000 in
/-- **C7** (corrected, counterexample): when `write_videofile` raises, the
already-opened source clip and the derived clip are NOT closed — the trace
holds the open, subclip and write attempts and no `close` at all, refuting
"releases resources on every exit path". -/
theorem c7_counterexample :
    (processWithMoviepy writeFailOracle "trim" "v.mp4" "out.mp4"
        { action := "trim", file_name := "v.mp4", start_time := some "00:00:01",
          end_time := some "00:00:03" }).1
        = ("Error processing video with MoviePy: disk full", none) ∧
      (processWithMoviepy writeFailOracle "trim" "v.mp4" "out.mp4"
        { action := "trim", file_name := "v.mp4", start_time := some "00:00:01",
          end_time := some "00:00:03" }).2
        = [MPCall.openClip "v.mp4", MPCall.subclip 1 1 3, MPCall.write 2 "out.mp4"] ∧
      (MPCall.close 1) ∉ [MPCall.openClip "v.mp4", MPCall.subclip 1 1 3,
          MPCall.write 2 "out.mp4"] ∧
      (MPCall.close 2) ∉ [MPCall.openClip "v.mp4", MPCall.subclip 1 1 3,
          MPCall.write 2 "out.mp4"] := by
  refine ⟨by rfl, by rfl, by decide, by decide⟩

/-- **C7** (amended): resources are released exactly on the success path —
when the dispatcher reports an output file, the trace contains a `close`;
when it reports `None` (exception, or unsupported action with the clip
already open), no `close` was ever issued. -/
theorem c7_amended (o : MPOracle) (action fileName outputFile : String)
    (ins : EditInstruction) :
    ((processWithMoviepy o action fileName outputFile ins).1.2 = none →
        (processWithMoviepy o action fileName outputFile ins).2.filter isClose = []) ∧
      (∀ f, (processWithMoviepy o action fileName outputFile ins).1.2 = some f →
        ∃ i, MPCall.close i ∈ (processWithMoviepy o action fileName outputFile ins).2) := by
  have hp := mpBody_tracePolicy o action fileName outputFile ins
  rw [processWithMoviepy_trace]
  unfold processWithMoviepy
  cases hb : mpBody o action fileName outputFile ins with
  | mk r tr =>
    rw [hb] at hp
    cases r with
    | error e =>
      simp only [tracePolicy] at hp
      exact ⟨fun _ => hp, by simp⟩
    | ok res =>
      obtain ⟨msg, of⟩ := res
      cases of with
      | none =>
        simp only [tracePolicy] at hp
        exact ⟨fun _ => hp, by simp⟩
      | some f =>
        simp only [tracePolicy] at hp
        exact ⟨by simp, fun f' _ => hp⟩

set_option maxRecDepth 40000 in
/-- Witness for `c7_amended`: a fully successful trim on `okOracle`. -/
theorem c7_amended_witness :
    (processWithMoviepy okOracle "trim" "v.mp4" "out.mp4"
        { action := "trim", file_name := "v.mp4", start_time := some "00:00:01",
          end_time := some "00:00:03" }).1.2 = some "out.mp4" ∧
      ∃ i, MPCall.close i ∈ (processWithMoviepy okOracle "trim" "v.mp4" "out.mp4"
        { action := "trim", file_name := "v.mp4", start_time := some "00:00:01",
          end_time := some "00:00:03" }).2 :=
  ⟨by rfl,
    (c7_amended okOracle "trim" "v.mp4" "out.mp4"
      { action := "trim", file_name := "v.mp4", start_time := some "00:00:01",
        end_time := some "00:00:03" }).2 "out.mp4" (by rfl)⟩

set_option maxRecDepth 40000 in
/-- **C9** (corrected, counterexample): a trim whose end time (10:00:00 =
36000 s) far exceeds the source clip's duration (5 s) passes 36000 to
`subclip` unchanged — the code never clamps the end time. -/
theorem c9_counterexample :
    (processWithMoviepy okOracle "trim" "v.mp4" "out.mp4"
        { action := "trim", file_name := "v.mp4", start_time := some "00:00:00",
          end_time := some "10:00:00" }).2
        = [MPCall.openClip "v.mp4", MPCall.subclip 1 0 36000, MPCall.write 2 "out.mp4",
           MPCall.close 1, MPCall.close 2] ∧
      (36000 : Nat) ≠ min 36000 5 := by
  refine ⟨by rfl, by decide⟩

/-- **C9** (amended): the delegated trim extracts the sub-range between the
converted start and end times exactly as given — the end defaults to the clip
duration only when absent and is never clamped to it. -/
theorem c9_amended (o : MPOracle) (fileName outputFile : String) (ins : EditInstruction)
    (t : String) (c : Clip) (s e : Nat)
    (hopen : o.openClip fileName = .ok c)
    (hstart : tsToSeconds (ins.start_time.getD "00:00:00") = some s)
    (hend : ins.end_time = some t)
    (hts : tsToSeconds t = some e) :
    MPCall.subclip c.id s e ∈ (processWithMoviepy o "trim" fileName outputFile ins).2 := by
  rw [processWithMoviepy_trace]
  unfold mpBody
  rw [hopen]
  dsimp only
  rw [if_pos rfl, hstart]
  dsimp only
  rw [hend]
  dsimp only
  rw [hts]
  dsimp only
  cases hsub : o.subclip c s e with
  | error msg => simp
  | ok rc =>
    unfold mpFinish
    cases hw : o.writeFile rc outputFile with
    | error e2 => simp [hw]
    | ok u => simp [hw]

set_option maxRecDepth 40000 in
/-- Witness for `c9_amended` on `okOracle`. -/
theorem c9_amended_witness :
    MPCall.subclip 1 0 36000 ∈ (processWithMoviepy okOracle "trim" "v.mp4" "out.mp4"
        { action := "trim", file_name := "v.mp4", start_time := some "00:00:00",
          end_time := some "10:00:00" }).2 :=
  c9_amended okOracle "v.mp4" "out.mp4"
    { action := "trim", file_name := "v.mp4", start_time := some "00:00:00",
      end_time := some "10:00:00" }
    "10:00:00" { id := 1, duration := 5 } 0 36000 (by rfl) (by rfl) (by rfl) (by rfl)

/-- **C10** (confirmed): when the media library is importable
(`editor_type = "moviepy"`) but the instruction's source file does not exist,
`process_edit` simulates that single instruction: a success message and a
non-null timestamp-suffixed output file, never an error result. -/
theorem c10_fallback (o : MPOracle) (nowTs : String) (ins : EditInstruction) :
    processEdit o "moviepy" false nowTs ins
        = ((simulateEditing ins.action ins.file_name
            (addTimestampSuffix (ins.output_file.getD ("output_" ++ ins.file_name)) nowTs)),
          []) ∧
      (processEdit o "moviepy" false nowTs ins).1.2
        = some (addTimestampSuffix (ins.output_file.getD ("output_" ++ ins.file_name)) nowTs) ∧
      (processEdit o "moviepy" false nowTs ins).1.1
        = "Successfully applied " ++ ins.action ++ " to " ++ ins.file_name
            ++ " and saved as "
            ++ addTimestampSuffix (ins.output_file.getD ("output_" ++ ins.file_name)) nowTs := by
  refine ⟨?_, ?_, ?_⟩ <;>
    simp [processEdit, simulateEditing]

end VVE
